import Mathlib

/-!
Verification of the update-search core of the uptag repository.

The central algorithm `find_update` (src/lib.rs) is embedded directly from
the source: the lazy tag stream becomes an explicit list of
`Except E String` items (an `Except.error` item is a failed fetch), and the
loop body becomes a step function over the explicit loop state
(breaking candidate, searched amount).

The version pattern / extractor / comparator modules are not part of the
given sources; they are modelled from the specification (section 4.1 to
4.3), marked `Modelled from the spec:` on each definition.
-/

namespace Uptag

/-- Modelled from the spec: a pattern segment is either literal text or a
placeholder, the placeholder carrying its breaking flag (section 3,
missing module `pattern`). -/
inductive Segment where
  | literal : List Char → Segment
  | placeholder : Bool → Segment
deriving DecidableEq, Repr

/-- Modelled from the spec: a compiled version pattern is an ordered
sequence of segments (section 3, missing module `pattern`). -/
abbrev VersionPattern := List Segment

/-- Parses a run of decimal digits as an unsigned integer. -/
def digitsToNat (ds : List Char) : Nat :=
  ds.foldl (fun n c => n * 10 + (c.toNat - 48)) 0

/-- Modelled from the spec: the linear left-to-right matcher (section 4.1,
missing module `pattern`): each literal segment requires an exact substring
match at the current position, each placeholder greedily consumes the
maximal run of decimal digits and fails on an empty run, and the whole
match fails unless the entire string is consumed. -/
def matchSegments : VersionPattern → List Char → Option (List Nat)
  | [], [] => some []
  | [], _ :: _ => none
  | .literal lit :: rest, cs =>
    if lit.isPrefixOf cs then matchSegments rest (cs.drop lit.length) else none
  | .placeholder _ :: rest, cs =>
    let digits := cs.takeWhile Char.isDigit
    if digits.isEmpty then none
    else (matchSegments rest (cs.dropWhile Char.isDigit)).map fun v => digitsToNat digits :: v

/-- Modelled from the spec: `extractFrom` (section 4.2, missing module
`version::extractor`) succeeds only when the scan consumes the entire tag,
yielding one integer per placeholder. -/
def extract_from (p : VersionPattern) (tag : String) : Option (List Nat) :=
  matchSegments p tag.data

def breakingDegreeAux : VersionPattern → Nat → Option Nat → Option Nat
  | [], _, acc => acc
  | .literal _ :: rest, i, acc => breakingDegreeAux rest i acc
  | .placeholder b :: rest, i, acc =>
    breakingDegreeAux rest (i + 1) (if b then some i else acc)

/-- Modelled from the spec: the breaking degree is the 0-based position,
among the placeholders from the left, of the last placeholder flagged
breaking; undefined when none is flagged (section 3, missing module
`pattern`). -/
def breaking_degree (p : VersionPattern) : Option Nat :=
  breakingDegreeAux p 0 none

inductive UpdateType where
  | breaking
  | compatible
deriving DecidableEq, Repr

/-- Modelled from the spec: lexicographic strict order on versions, most
significant component first (section 4.3, missing module `version`);
mirrors the derived `Ord` on the component vector. -/
def versionLt : List Nat → List Nat → Bool
  | [], [] => false
  | [], _ :: _ => true
  | _ :: _, [] => false
  | a :: as, b :: bs => if a < b then true else if b < a then false else versionLt as bs

/-- Index of the leftmost position where the two component lists differ. -/
def leftmostDiff : List Nat → List Nat → Option Nat
  | a :: as, b :: bs =>
    if a = b then (leftmostDiff as bs).map (· + 1) else some 0
  | _, _ => none

/-- Modelled from the spec: `updateType` (section 4.3, missing module
`version`): find the leftmost index where candidate and current differ; if
the breaking degree is defined and that index is at most the breaking
degree, classify Breaking, else Compatible. -/
def update_type (candidate current : List Nat) (bd : Option Nat) : UpdateType :=
  match leftmostDiff candidate current, bd with
  | some i, some d => if i ≤ d then .breaking else .compatible
  | _, _ => .compatible

/-- The search result (src/lib.rs, `Update`). -/
structure Update where
  compatible : Option String
  breaking : Option String
deriving DecidableEq, Repr

/-- The search errors (src/lib.rs, `FindUpdateError`). -/
inductive FindUpdateError (E : Type) where
  | fetchError : E → FindUpdateError E
  | currentTagNotEncountered : Nat → FindUpdateError E
  | currentTagPatternConflict : String → VersionPattern → FindUpdateError E
deriving DecidableEq, Repr

/-- The mutable state of the search loop in src/lib.rs: the recorded
breaking candidate and the number of items pulled so far. -/
structure LoopState where
  breaking : Option String
  searched : Nat
deriving DecidableEq, Repr

/-- Outcome of one loop iteration: either proceed with an updated state or
return from `find_update` with a final result. -/
inductive StepOut (E : Type) where
  | next : Option String → Nat → StepOut E
  | done : Except (FindUpdateError E) Update → StepOut E

/-- One iteration of the loop body of `find_update` (src/lib.rs lines
37-68) on a pulled item. -/
def step {E : Type} (p : VersionPattern) (currentTag : String)
    (currentVersion : List Nat) (st : LoopState) (item : Except E String) : StepOut E :=
  match item with
  | .error e => .done (.error (.fetchError e))
  | .ok tag =>
    if tag = currentTag then
      .done (.ok ⟨none, st.breaking⟩)
    else
      match extract_from p tag with
      | none => .next st.breaking (st.searched + 1)
      | some v =>
        if versionLt v currentVersion then
          .next st.breaking (st.searched + 1)
        else
          match update_type v currentVersion (breaking_degree p) with
          | .breaking => .next (st.breaking.or (some tag)) (st.searched + 1)
          | .compatible => .done (.ok ⟨some tag, st.breaking⟩)

/-- Runs the loop of `find_update` over a list of pulled items: either an
early return carried as `Except.error`, or the final state after the list
is exhausted. -/
def runItems {E : Type} (p : VersionPattern) (currentTag : String)
    (currentVersion : List Nat) :
    LoopState → List (Except E String) →
    Except (Except (FindUpdateError E) Update) LoopState
  | st, [] => .ok st
  | st, item :: rest =>
    match step p currentTag currentVersion st item with
    | .done out => .error out
    | .next b n => runItems p currentTag currentVersion ⟨b, n⟩ rest

/-- `find_update` (src/lib.rs lines 17-78), with the `TagFetcher`'s lazy
stream given as the explicit list of items it yields. -/
def find_update {E : Type} (p : VersionPattern) (currentTag : String)
    (items : List (Except E String)) : Except (FindUpdateError E) Update :=
  match extract_from p currentTag with
  | none => .error (.currentTagPatternConflict currentTag p)
  | some currentVersion =>
    match runItems p currentTag currentVersion ⟨none, 0⟩ items with
    | .error out => out
    | .ok st =>
      match st.breaking with
      | some b => .ok ⟨none, some b⟩
      | none => .error (.currentTagNotEncountered st.searched)

/-- The tags yielded successfully by a list of pulled items, in order. -/
def okTags {E : Type} (items : List (Except E String)) : List String :=
  items.filterMap fun item => match item with | .ok t => some t | .error _ => none

/-- A tag reaches the Breaking arm of the loop body: it differs from the
current tag, extraction succeeds, the version is not strictly lesser, and
`update_type` classifies it Breaking. -/
def classifies_breaking (p : VersionPattern) (ct : String) (cv : List Nat)
    (tag : String) : Bool :=
  if tag = ct then false
  else
    match extract_from p tag with
    | none => false
    | some v =>
      if versionLt v cv then false
      else
        match update_type v cv (breaking_degree p) with
        | .breaking => true
        | .compatible => false

/-- A tag reaches the Compatible arm of the loop body: it differs from the
current tag, extraction succeeds, the version is not strictly lesser, and
`update_type` classifies it Compatible. -/
def classifies_compatible (p : VersionPattern) (ct : String) (cv : List Nat)
    (tag : String) : Bool :=
  if tag = ct then false
  else
    match extract_from p tag with
    | none => false
    | some v =>
      if versionLt v cv then false
      else
        match update_type v cv (breaking_degree p) with
        | .breaking => false
        | .compatible => true

/-- The first successfully pulled tag that reaches the Breaking arm. -/
def first_breaking (p : VersionPattern) (ct : String) (cv : List Nat)
    {E : Type} (items : List (Except E String)) : Option String :=
  List.find? (classifies_breaking p ct cv) (okTags items)

/-- The compiled form of the pattern string `<!>.<>`: a breaking
placeholder, a literal dot, a plain placeholder. -/
def patBang : VersionPattern :=
  [.placeholder true, .literal ['.'], .placeholder false]

/-- The compiled form of the pattern string `<>.<>`: two plain
placeholders around a literal dot. -/
def patPlain : VersionPattern :=
  [.placeholder false, .literal ['.'], .placeholder false]

/-! ### Equations for one loop iteration -/

theorem step_error {E : Type} (p : VersionPattern) (ct : String) (cv : List Nat)
    (st : LoopState) (e : E) :
    step p ct cv st (.error e) = .done (.error (.fetchError e)) := rfl

theorem step_ok_current {E : Type} (p : VersionPattern) (ct : String) (cv : List Nat)
    (st : LoopState) :
    step (E := E) p ct cv st (.ok ct) = .done (.ok ⟨none, st.breaking⟩) := by
  simp [step]

theorem step_ok_nomatch {E : Type} {p : VersionPattern} {ct : String} {cv : List Nat}
    (st : LoopState) {tag : String} (htag : tag ≠ ct)
    (hx : extract_from p tag = none) :
    step (E := E) p ct cv st (.ok tag) = .next st.breaking (st.searched + 1) := by
  simp [step, htag, hx]

theorem step_ok_lesser {E : Type} {p : VersionPattern} {ct : String} {cv : List Nat}
    (st : LoopState) {tag : String} {v : List Nat} (htag : tag ≠ ct)
    (hx : extract_from p tag = some v) (hlt : versionLt v cv = true) :
    step (E := E) p ct cv st (.ok tag) = .next st.breaking (st.searched + 1) := by
  simp [step, htag, hx, hlt]

theorem step_ok_breaking {E : Type} {p : VersionPattern} {ct : String} {cv : List Nat}
    (st : LoopState) {tag : String} {v : List Nat} (htag : tag ≠ ct)
    (hx : extract_from p tag = some v) (hlt : versionLt v cv = false)
    (hu : update_type v cv (breaking_degree p) = .breaking) :
    step (E := E) p ct cv st (.ok tag) =
      .next (st.breaking.or (some tag)) (st.searched + 1) := by
  simp [step, htag, hx, hlt, hu]

theorem step_ok_compatible {E : Type} {p : VersionPattern} {ct : String} {cv : List Nat}
    (st : LoopState) {tag : String} {v : List Nat} (htag : tag ≠ ct)
    (hx : extract_from p tag = some v) (hlt : versionLt v cv = false)
    (hu : update_type v cv (breaking_degree p) = .compatible) :
    step (E := E) p ct cv st (.ok tag) = .done (.ok ⟨some tag, st.breaking⟩) := by
  simp [step, htag, hx, hlt, hu]

/-! ### Evaluation of the branch classifiers -/

theorem classifies_breaking_nomatch {p : VersionPattern} {ct : String} {cv : List Nat}
    {tag : String} (htag : tag ≠ ct) (hx : extract_from p tag = none) :
    classifies_breaking p ct cv tag = false := by
  simp [classifies_breaking, htag, hx]

theorem classifies_breaking_lesser {p : VersionPattern} {ct : String} {cv : List Nat}
    {tag : String} {v : List Nat} (htag : tag ≠ ct)
    (hx : extract_from p tag = some v) (hlt : versionLt v cv = true) :
    classifies_breaking p ct cv tag = false := by
  simp [classifies_breaking, htag, hx, hlt]

theorem classifies_breaking_yes {p : VersionPattern} {ct : String} {cv : List Nat}
    {tag : String} {v : List Nat} (htag : tag ≠ ct)
    (hx : extract_from p tag = some v) (hlt : versionLt v cv = false)
    (hu : update_type v cv (breaking_degree p) = .breaking) :
    classifies_breaking p ct cv tag = true := by
  simp [classifies_breaking, htag, hx, hlt, hu]

theorem classifies_breaking_compat {p : VersionPattern} {ct : String} {cv : List Nat}
    {tag : String} {v : List Nat} (htag : tag ≠ ct)
    (hx : extract_from p tag = some v) (hlt : versionLt v cv = false)
    (hu : update_type v cv (breaking_degree p) = .compatible) :
    classifies_breaking p ct cv tag = false := by
  simp [classifies_breaking, htag, hx, hlt, hu]

theorem classifies_compatible_spec {p : VersionPattern} {ct : String} {cv : List Nat}
    {tag : String} (h : classifies_compatible p ct cv tag = true) :
    tag ≠ ct ∧ ∃ v, extract_from p tag = some v ∧ versionLt v cv = false ∧
      update_type v cv (breaking_degree p) = .compatible := by
  by_cases htag : tag = ct
  · simp [classifies_compatible, htag] at h
  · refine ⟨htag, ?_⟩
    cases hx : extract_from p tag with
    | none => simp [classifies_compatible, htag, hx] at h
    | some v =>
      refine ⟨v, rfl, ?_⟩
      cases hlt : versionLt v cv with
      | true => simp [classifies_compatible, htag, hx, hlt] at h
      | false =>
        cases hu : update_type v cv (breaking_degree p) with
        | breaking => simp [classifies_compatible, htag, hx, hlt, hu] at h
        | compatible => exact ⟨rfl, rfl⟩

/-! ### First-breaking bookkeeping -/

theorem first_breaking_cons_error {E : Type} (p : VersionPattern) (ct : String)
    (cv : List Nat) (e : E) (rest : List (Except E String)) :
    first_breaking p ct cv (.error e :: rest) = first_breaking p ct cv rest := by
  simp [first_breaking, okTags]

theorem first_breaking_cons_no {E : Type} {p : VersionPattern} {ct : String}
    {cv : List Nat} {tag : String} (hcb : classifies_breaking p ct cv tag = false)
    (rest : List (Except E String)) :
    first_breaking p ct cv (.ok tag :: rest) = first_breaking p ct cv rest := by
  simp [first_breaking, okTags, List.find?_cons, hcb]

theorem first_breaking_cons_yes {E : Type} {p : VersionPattern} {ct : String}
    {cv : List Nat} {tag : String} (hcb : classifies_breaking p ct cv tag = true)
    (rest : List (Except E String)) :
    first_breaking p ct cv (.ok tag :: rest) = some tag := by
  simp [first_breaking, okTags, List.find?_cons, hcb]

/-! ### Structure of a full loop run -/

theorem runItems_append {E : Type} (p : VersionPattern) (ct : String) (cv : List Nat)
    (xs ys : List (Except E String)) :
    ∀ st : LoopState, runItems p ct cv st (xs ++ ys) =
      match runItems p ct cv st xs with
      | .error out => .error out
      | .ok st' => runItems p ct cv st' ys := by
  induction xs with
  | nil => intro st; rfl
  | cons item rest ih =>
    intro st
    show runItems p ct cv st (item :: (rest ++ ys)) = _
    rw [runItems, runItems]
    cases step p ct cv st item with
    | done out => rfl
    | next b n => exact ih ⟨b, n⟩

theorem runItems_ok_state {E : Type} (p : VersionPattern) (ct : String) (cv : List Nat) :
    ∀ (items : List (Except E String)) (st st' : LoopState),
      runItems p ct cv st items = .ok st' →
      st'.searched = st.searched + items.length ∧
      st'.breaking = st.breaking.or (first_breaking p ct cv items) := by
  intro items
  induction items with
  | nil =>
    intro st st' h
    cases h
    constructor
    · rfl
    · cases st.breaking <;> simp [first_breaking, okTags, Option.or]
  | cons item rest ih =>
    intro st st' h
    cases item with
    | error e =>
      rw [runItems, step_error] at h
      exact Except.noConfusion h
    | ok tag =>
      by_cases htag : tag = ct
      · subst htag
        rw [runItems, step_ok_current] at h
        exact Except.noConfusion h
      · cases hx : extract_from p tag with
        | none =>
          rw [runItems, step_ok_nomatch st htag hx] at h
          obtain ⟨h1, h2⟩ := ih ⟨st.breaking, st.searched + 1⟩ st' h
          refine ⟨by simp only [List.length_cons] at *; omega, ?_⟩
          rw [h2, first_breaking_cons_no (classifies_breaking_nomatch htag hx)]
        | some v =>
          cases hlt : versionLt v cv with
          | true =>
            rw [runItems, step_ok_lesser st htag hx hlt] at h
            obtain ⟨h1, h2⟩ := ih ⟨st.breaking, st.searched + 1⟩ st' h
            refine ⟨by simp only [List.length_cons] at *; omega, ?_⟩
            rw [h2, first_breaking_cons_no (classifies_breaking_lesser htag hx hlt)]
          | false =>
            cases hu : update_type v cv (breaking_degree p) with
            | breaking =>
              rw [runItems, step_ok_breaking st htag hx hlt hu] at h
              obtain ⟨h1, h2⟩ := ih ⟨st.breaking.or (some tag), st.searched + 1⟩ st' h
              refine ⟨by simp only [List.length_cons] at *; omega, ?_⟩
              rw [h2, first_breaking_cons_yes (classifies_breaking_yes htag hx hlt hu)]
              cases st.breaking <;> simp [Option.or]
            | compatible =>
              rw [runItems, step_ok_compatible st htag hx hlt hu] at h
              exact Except.noConfusion h

theorem runItems_cons_done {E : Type} {p : VersionPattern} {ct : String} {cv : List Nat}
    {st : LoopState} {item : Except E String} {out : Except (FindUpdateError E) Update}
    (h : step p ct cv st item = .done out) (rest : List (Except E String)) :
    runItems p ct cv st (item :: rest) = .error out := by
  rw [runItems, h]

theorem runItems_cons_next {E : Type} {p : VersionPattern} {ct : String} {cv : List Nat}
    {st : LoopState} {item : Except E String} {b : Option String} {n : Nat}
    (h : step p ct cv st item = .next b n) (rest : List (Except E String)) :
    runItems p ct cv st (item :: rest) = runItems p ct cv ⟨b, n⟩ rest := by
  rw [runItems, h]

theorem find_update_split {E : Type} {p : VersionPattern} {ct : String} {cv : List Nat}
    {pre : List (Except E String)} {st : LoopState}
    (hcv : extract_from p ct = some cv)
    (hpre : runItems p ct cv ⟨none, 0⟩ pre = .ok st) (items : List (Except E String)) :
    find_update p ct (pre ++ items) =
      match runItems p ct cv st items with
      | .error out => out
      | .ok st' =>
        match st'.breaking with
        | some b => .ok ⟨none, some b⟩
        | none => .error (.currentTagNotEncountered st'.searched) := by
  unfold find_update
  rw [hcv]
  dsimp only
  rw [runItems_append, hpre]

/-! ### The update-type classification -/

theorem update_type_none (v cv : List Nat) : update_type v cv none = .compatible := by
  unfold update_type
  cases leftmostDiff v cv <;> rfl

theorem classifies_breaking_of_degree_none {p : VersionPattern} {ct : String}
    {cv : List Nat} (hp : breaking_degree p = none) (tag : String) :
    classifies_breaking p ct cv tag = false := by
  by_cases htag : tag = ct
  · simp [classifies_breaking, htag]
  · cases hx : extract_from p tag with
    | none => simp [classifies_breaking, htag, hx]
    | some v =>
      cases hlt : versionLt v cv with
      | true => simp [classifies_breaking, htag, hx, hlt]
      | false => simp [classifies_breaking, htag, hx, hlt, hp, update_type_none]

theorem runItems_done_breaking {E : Type} (p : VersionPattern) (ct : String)
    (cv : List Nat) (hnb : ∀ t, classifies_breaking p ct cv t = false) :
    ∀ (items : List (Except E String)) (st : LoopState), st.breaking = none →
      ∀ u, runItems p ct cv st items = .error (.ok u) → u.breaking = none := by
  intro items
  induction items with
  | nil => intro st hst u h; exact Except.noConfusion h
  | cons item rest ih =>
    intro st hst u h
    cases item with
    | error e =>
      rw [runItems, step_error] at h
      injection h with h'
      exact Except.noConfusion h'
    | ok tag =>
      by_cases htag : tag = ct
      · subst htag
        rw [runItems, step_ok_current] at h
        injection h with h'
        injection h' with h''
        subst h''
        exact hst
      · cases hx : extract_from p tag with
        | none =>
          rw [runItems, step_ok_nomatch st htag hx] at h
          exact ih ⟨st.breaking, st.searched + 1⟩ hst u h
        | some v =>
          cases hlt : versionLt v cv with
          | true =>
            rw [runItems, step_ok_lesser st htag hx hlt] at h
            exact ih ⟨st.breaking, st.searched + 1⟩ hst u h
          | false =>
            cases hu : update_type v cv (breaking_degree p) with
            | breaking =>
              have hcb := hnb tag
              rw [classifies_breaking_yes htag hx hlt hu] at hcb
              exact Bool.noConfusion hcb
            | compatible =>
              rw [runItems, step_ok_compatible st htag hx hlt hu] at h
              injection h with h'
              injection h' with h''
              subst h''
              exact hst

theorem leftmostDiff_of_lt :
    ∀ {a b : List Nat}, a.length = b.length → versionLt a b = true →
      ∃ i, leftmostDiff b a = some i := by
  intro a
  induction a with
  | nil =>
    intro b hlen hlt
    cases b with
    | nil => exact Bool.noConfusion hlt
    | cons y ys => simp at hlen
  | cons x xs ih =>
    intro b hlen hlt
    cases b with
    | nil => simp at hlen
    | cons y ys =>
      by_cases hxy : x < y
      · refine ⟨0, ?_⟩
        have hne : ¬ (y = x) := by omega
        simp [leftmostDiff, hne]
      · by_cases hyx : y < x
        · simp [versionLt, hxy, hyx] at hlt
        · have hx : x = y := by omega
          subst hx
          have hlt' : versionLt xs ys = true := by simpa [versionLt] using hlt
          obtain ⟨i, hi⟩ := ih (by simpa using hlen) hlt'
          exact ⟨i + 1, by simp [leftmostDiff, hi]⟩

theorem update_type_breaking_iff (cand cur : List Nat) (bd : Option Nat) (i : Nat)
    (hld : leftmostDiff cand cur = some i) :
    update_type cand cur bd = .breaking ↔ ∃ d, bd = some d ∧ i ≤ d := by
  cases bd with
  | none =>
    rw [update_type_none]
    constructor
    · intro h; exact UpdateType.noConfusion h
    · rintro ⟨d, hd, _⟩; exact Option.noConfusion hd
  | some d =>
    have heq : update_type cand cur (some d) =
        if i ≤ d then UpdateType.breaking else UpdateType.compatible := by
      unfold update_type; rw [hld]
    rw [heq]
    by_cases hid : i ≤ d
    · rw [if_pos hid]
      exact ⟨fun _ => ⟨d, rfl, hid⟩, fun _ => rfl⟩
    · rw [if_neg hid]
      constructor
      · intro h; exact UpdateType.noConfusion h
      · rintro ⟨d', hd', hle⟩
        injection hd' with h''
        exact absurd (h'' ▸ hle) hid

/-! ### The claims -/

/-- C1: in every run of `find_update`, the recorded breaking candidate
after any error-free, termination-free prefix is exactly the first
Breaking-classified tag of that prefix (the scan continues past it); a
Compatible-classified tag pulled next terminates the search at once with
that tag as compatible and the recorded first Breaking tag (or none) as
breaking; in particular pattern `<!>.<>` with current tag `14.04` over
[15.02, 14.05, 14.04, 14.03, 13.03] yields compatible 14.05, breaking
15.02. -/
theorem claim1_first_breaking_then_compatible :
    (∀ (E : Type) (p : VersionPattern) (ct : String) (cv : List Nat)
        (pre : List (Except E String)) (b : Option String) (n : Nat),
        runItems p ct cv ⟨none, 0⟩ pre = .ok ⟨b, n⟩ →
        b = first_breaking p ct cv pre) ∧
    (∀ (E : Type) (p : VersionPattern) (ct : String) (cv : List Nat)
        (pre rest : List (Except E String)) (b : Option String) (n : Nat) (t : String),
        extract_from p ct = some cv →
        runItems p ct cv ⟨none, 0⟩ pre = .ok ⟨b, n⟩ →
        classifies_compatible p ct cv t = true →
        find_update p ct (pre ++ .ok t :: rest) = .ok ⟨some t, b⟩) ∧
    find_update (E := Unit) patBang "14.04"
        [.ok "15.02", .ok "14.05", .ok "14.04", .ok "14.03", .ok "13.03"] =
      .ok ⟨some "14.05", some "15.02"⟩ := by
  refine ⟨?_, ?_, rfl⟩
  · intro E p ct cv pre b n h
    have h2 := (runItems_ok_state p ct cv pre ⟨none, 0⟩ ⟨b, n⟩ h).2
    simpa [Option.or] using h2
  · intro E p ct cv pre rest b n t hcv hpre hcc
    obtain ⟨htag, v, hx, hlt, hu⟩ := classifies_compatible_spec hcc
    rw [find_update_split hcv hpre,
      runItems_cons_done (step_ok_compatible ⟨b, n⟩ htag hx hlt hu) rest]

/-- Witness for C1: a recorded breaking tag `15.02` followed by the
compatible hit `14.05`. -/
theorem claim1_witness :
    find_update (E := Unit) patBang "14.04" ([.ok "15.02"] ++ .ok "14.05" :: []) =
      .ok ⟨some "14.05", some "15.02"⟩ :=
  claim1_first_breaking_then_compatible.2.1 Unit patBang "14.04" [14, 4]
    [.ok "15.02"] [] (some "15.02") 1 "14.05" rfl rfl rfl

/-- C2: a pulled tag equal to the current tag (after an error-free,
termination-free prefix) terminates the search successfully with
compatible none and the breaking candidate recorded so far, for every
possible remainder of the sequence — so no further item is pulled. -/
theorem claim2_current_tag_terminates :
    ∀ (E : Type) (p : VersionPattern) (ct : String) (cv : List Nat)
      (pre rest : List (Except E String)) (b : Option String) (n : Nat),
      extract_from p ct = some cv →
      runItems p ct cv ⟨none, 0⟩ pre = .ok ⟨b, n⟩ →
      find_update p ct (pre ++ .ok ct :: rest) = .ok ⟨none, b⟩ := by
  intro E p ct cv pre rest b n hcv hpre
  rw [find_update_split hcv hpre,
    runItems_cons_done (step_ok_current p ct cv ⟨b, n⟩) rest]

/-- Witness for C2: a pattern-less tag in the prefix, the current tag,
then an error item that is never reached. -/
theorem claim2_witness :
    find_update (E := Unit) patBang "14.04"
        ([.ok "bogus"] ++ .ok "14.04" :: [.error ()]) =
      .ok ⟨none, none⟩ :=
  claim2_current_tag_terminates Unit patBang "14.04" [14, 4] [.ok "bogus"]
    [.error ()] none 1 rfl rfl

/-- C3 counterexample: tag `14.004` differs from current `14.04` as a
string but extracts the same (not strictly greater) version; `find_update`
does not skip it — the tag reaches `update_type`, classifies Compatible
and is returned as the compatible update, instead of the scan continuing
as the claim requires. -/
theorem claim3_counterexample :
    extract_from patBang "14.004" = some [14, 4] ∧
    extract_from patBang "14.04" = some [14, 4] ∧
    ("14.004" : String) ≠ "14.04" ∧
    versionLt [14, 4] [14, 4] = false ∧
    update_type [14, 4] [14, 4] (breaking_degree patBang) = .compatible ∧
    find_update (E := Unit) patBang "14.04" [.ok "14.004"] =
      .ok ⟨some "14.004", none⟩ :=
  ⟨rfl, rfl, by decide, rfl, rfl, rfl⟩

/-- C3 amended: a pulled tag whose string differs from the current tag and
whose extracted version is strictly lesser is skipped and the scan
continues; a tag whose extracted version is not strictly lesser (greater
or equal) proceeds to `update_type`, which alone decides the step. -/
theorem claim3_amended_skip_strictly_lesser :
    (∀ (E : Type) (p : VersionPattern) (ct : String) (cv : List Nat)
        (st : LoopState) (t : String) (rest : List (Except E String)) (v : List Nat),
        t ≠ ct → extract_from p t = some v → versionLt v cv = true →
        runItems p ct cv st (.ok t :: rest) =
          runItems p ct cv ⟨st.breaking, st.searched + 1⟩ rest) ∧
    (∀ (E : Type) (p : VersionPattern) (ct : String) (cv : List Nat)
        (st : LoopState) (t : String) (v : List Nat),
        t ≠ ct → extract_from p t = some v → versionLt v cv = false →
        step (E := E) p ct cv st (.ok t) =
          (match update_type v cv (breaking_degree p) with
           | .breaking => .next (st.breaking.or (some t)) (st.searched + 1)
           | .compatible => .done (.ok ⟨some t, st.breaking⟩))) := by
  constructor
  · intro E p ct cv st t rest v htag hx hlt
    exact runItems_cons_next (step_ok_lesser st htag hx hlt) rest
  · intro E p ct cv st t v htag hx hlt
    cases hu : update_type v cv (breaking_degree p) with
    | breaking => rw [step_ok_breaking st htag hx hlt hu]
    | compatible => rw [step_ok_compatible st htag hx hlt hu]

/-- Witness for the amended C3: the lesser tag `13.03` is skipped, and the
greater tag `15.02` is decided by `update_type`. -/
theorem claim3_witness :
    runItems (E := Unit) patBang "14.04" [14, 4] ⟨none, 0⟩ [.ok "13.03", .ok "99.99"] =
      runItems (E := Unit) patBang "14.04" [14, 4] ⟨none, 1⟩ [.ok "99.99"] ∧
    step (E := Unit) patBang "14.04" [14, 4] ⟨none, 0⟩ (.ok "15.02") =
      .next (some "15.02") 1 :=
  ⟨claim3_amended_skip_strictly_lesser.1 Unit patBang "14.04" [14, 4] ⟨none, 0⟩
      "13.03" [.ok "99.99"] [13, 3] (by decide) rfl rfl,
   claim3_amended_skip_strictly_lesser.2 Unit patBang "14.04" [14, 4] ⟨none, 0⟩
      "15.02" [15, 2] (by decide) rfl rfl⟩

/-- C4: when the sequence is exhausted with no error, no current-tag match
and no Compatible hit, the searched amount equals the number of items, and
the run returns the recorded breaking candidate if any, else fails with
`CurrentTagNotEncountered` carrying that count; in particular pattern
`<!>.<>` with current `14.04` over [14.03, 14.02, 13.03] fails with
examined count 3. -/
theorem claim4_exhaustion :
    (∀ (E : Type) (p : VersionPattern) (ct : String) (cv : List Nat)
        (items : List (Except E String)) (b : Option String) (n : Nat),
        extract_from p ct = some cv →
        runItems p ct cv ⟨none, 0⟩ items = .ok ⟨b, n⟩ →
        n = items.length ∧
        find_update p ct items =
          (match b with
           | some bt => .ok ⟨none, some bt⟩
           | none => .error (.currentTagNotEncountered items.length))) ∧
    find_update (E := Unit) patBang "14.04" [.ok "14.03", .ok "14.02", .ok "13.03"] =
      .error (.currentTagNotEncountered 3) := by
  refine ⟨?_, rfl⟩
  intro E p ct cv items b n hcv hrun
  have h1 := (runItems_ok_state p ct cv items ⟨none, 0⟩ ⟨b, n⟩ hrun).1
  have hn : n = items.length := by simpa using h1
  refine ⟨hn, ?_⟩
  unfold find_update
  rw [hcv]
  dsimp only
  rw [hrun]
  cases b with
  | some bt => rfl
  | none =>
    dsimp only
    rw [hn]

/-- Witness for C4: exhaustion with a recorded breaking candidate. -/
theorem claim4_witness :
    3 = ([.ok "15.02", .ok "14.01", .ok "13.03"] : List (Except Unit String)).length ∧
    find_update (E := Unit) patBang "14.04" [.ok "15.02", .ok "14.01", .ok "13.03"] =
      .ok ⟨none, some "15.02"⟩ :=
  claim4_exhaustion.1 Unit patBang "14.04" [14, 4]
    [.ok "15.02", .ok "14.01", .ok "13.03"] (some "15.02") 3 rfl rfl

/-- C5: an error item (after an error-free, termination-free prefix)
aborts the whole search with `FetchError`, for every possible remainder of
the sequence — no partial result survives and no further item is
pulled. -/
theorem claim5_fetch_failure_aborts :
    ∀ (E : Type) (p : VersionPattern) (ct : String) (cv : List Nat)
      (pre rest : List (Except E String)) (st : LoopState) (e : E),
      extract_from p ct = some cv →
      runItems p ct cv ⟨none, 0⟩ pre = .ok st →
      find_update p ct (pre ++ .error e :: rest) = .error (.fetchError e) := by
  intro E p ct cv pre rest st e hcv hpre
  rw [find_update_split hcv hpre, runItems_cons_done (step_error p ct cv st e) rest]

/-- Witness for C5: a recorded breaking candidate is discarded when a
fetch error follows, even though the current tag would come later. -/
theorem claim5_witness :
    find_update (E := Unit) patBang "14.04" ([.ok "15.02"] ++ .error () :: [.ok "14.04"]) =
      .error (.fetchError ()) :=
  claim5_fetch_failure_aborts Unit patBang "14.04" [14, 4] [.ok "15.02"]
    [.ok "14.04"] ⟨some "15.02", 1⟩ () rfl rfl

/-- C6: when the current tag does not match the pattern, `find_update`
fails with `CurrentTagPatternConflict` — uniformly in the item list, so no
item of the source is ever examined. -/
theorem claim6_current_tag_conflict :
    ∀ (E : Type) (p : VersionPattern) (ct : String) (items : List (Except E String)),
      extract_from p ct = none →
      find_update p ct items = .error (.currentTagPatternConflict ct p) := by
  intro E p ct items hcv
  unfold find_update
  rw [hcv]

/-- Witness for C6: the current tag `latest` has no digits to match. -/
theorem claim6_witness :
    find_update (E := Unit) patBang "latest" [.error ()] =
      .error (.currentTagPatternConflict "latest" patBang) :=
  claim6_current_tag_conflict Unit patBang "latest" [.error ()] rfl

/-- C7: for same-length versions with the candidate strictly greater,
`update_type` is Breaking exactly when the breaking degree is defined and
the leftmost differing index is at most it; with no defined breaking
degree no update classifies Breaking, and a search with pattern `<>.<>`
never reports a breaking tag. -/
theorem claim7_update_type_classification :
    (∀ (cand cur : List Nat) (bd : Option Nat),
        cand.length = cur.length → versionLt cur cand = true →
        ∃ i, leftmostDiff cand cur = some i ∧
          (update_type cand cur bd = .breaking ↔ ∃ d, bd = some d ∧ i ≤ d)) ∧
    (∀ (cand cur : List Nat), update_type cand cur none ≠ .breaking) ∧
    breaking_degree patPlain = none ∧
    (∀ (E : Type) (ct : String) (items : List (Except E String)) (u : Update),
        find_update patPlain ct items = .ok u → u.breaking = none) := by
  refine ⟨?_, ?_, rfl, ?_⟩
  · intro cand cur bd hlen hlt
    obtain ⟨i, hi⟩ := leftmostDiff_of_lt hlen.symm hlt
    exact ⟨i, hi, update_type_breaking_iff cand cur bd i hi⟩
  · intro cand cur h
    rw [update_type_none] at h
    exact UpdateType.noConfusion h
  · intro E ct items u h
    unfold find_update at h
    cases hcv : extract_from patPlain ct with
    | none =>
      rw [hcv] at h
      exact Except.noConfusion h
    | some cv =>
      rw [hcv] at h
      dsimp only at h
      have hnb : ∀ t, classifies_breaking patPlain ct cv t = false :=
        classifies_breaking_of_degree_none rfl
      cases hrun : runItems (E := E) patPlain ct cv ⟨none, 0⟩ items with
      | error out =>
        rw [hrun] at h
        dsimp only at h
        subst h
        exact runItems_done_breaking patPlain ct cv hnb items ⟨none, 0⟩ rfl u hrun
      | ok st =>
        rw [hrun] at h
        dsimp only at h
        have hbreak := (runItems_ok_state patPlain ct cv items ⟨none, 0⟩ st hrun).2
        have hfb : first_breaking patPlain ct cv (E := E) items = none := by
          cases hfb2 : first_breaking patPlain ct cv (E := E) items with
          | none => rfl
          | some t =>
            unfold first_breaking at hfb2
            have ht := List.find?_some hfb2
            rw [hnb t] at ht
            exact Bool.noConfusion ht
        rw [hfb] at hbreak
        have hstb : st.breaking = none := by simpa [Option.or] using hbreak
        rw [hstb] at h
        dsimp only at h
        exact Except.noConfusion h

/-- Witness for C7: `15.02` against `14.04` at breaking degree 0, and a
compatible-only result from pattern `<>.<>`. -/
theorem claim7_witness :
    (∃ i, leftmostDiff [15, 2] [14, 4] = some i ∧
        (update_type [15, 2] [14, 4] (some 0) = .breaking ↔
          ∃ d, (some 0 : Option Nat) = some d ∧ i ≤ d)) ∧
    (Update.mk (some "14.05") none).breaking = none :=
  ⟨claim7_update_type_classification.1 [15, 2] [14, 4] (some 0) rfl rfl,
   claim7_update_type_classification.2.2.2 Unit "14.04" [.ok "14.05"]
     ⟨some "14.05", none⟩ rfl⟩

/-- C8: `find_update` is deterministic in the yielded item sequence — for
a fixed pattern and current tag, identical item sequences give identical
outcomes. -/
theorem claim8_determinism :
    ∀ (E : Type) (p : VersionPattern) (ct : String)
      (items₁ items₂ : List (Except E String)),
      items₁ = items₂ → find_update p ct items₁ = find_update p ct items₂ := by
  intro E p ct items₁ items₂ h
  rw [h]

/-- Witness for C8 at a concrete sequence. -/
theorem claim8_witness :
    find_update (E := Unit) patBang "14.04" [.ok "14.05"] =
      find_update (E := Unit) patBang "14.04" [.ok "14.05"] :=
  claim8_determinism Unit patBang "14.04" [.ok "14.05"] [.ok "14.05"] rfl

/-! ### Exit codes (src/main.rs) -/

/-- The report update levels matched in src/main.rs; the enum itself lives
in the missing module `report`, but all four variants appear in the match
of `ExitCode::from`. -/
inductive UpdateLevel where
  | failure
  | breakingUpdate
  | compatibleUpdate
  | noUpdates
deriving DecidableEq, Repr

/-- Exit code constant `EXIT_OK` (src/main.rs line 80). -/
def EXIT_OK : Int := 0

/-- Exit code constant `EXIT_NO_UPDATE` (src/main.rs line 81). -/
def EXIT_NO_UPDATE : Int := 0

/-- Exit code constant `EXIT_COMPATIBLE_UPDATE` (src/main.rs line 82). -/
def EXIT_COMPATIBLE_UPDATE : Int := 1

/-- Exit code constant `EXIT_BREAKING_UPDATE` (src/main.rs line 83). -/
def EXIT_BREAKING_UPDATE : Int := 2

/-- Exit code constant `EXIT_ERROR` (src/main.rs line 84). -/
def EXIT_ERROR : Int := 10

/-- `ExitCode::from` (src/main.rs lines 86-95): the process exit code as a
function of the report's overall update level. -/
def exit_code_from : UpdateLevel → Int
  | .failure => EXIT_ERROR
  | .breakingUpdate => EXIT_BREAKING_UPDATE
  | .compatibleUpdate => EXIT_COMPATIBLE_UPDATE
  | .noUpdates => EXIT_NO_UPDATE

/-- C9: the exit code of a completed check is 0 for no updates, 1 for a
compatible update, 2 for a breaking update, and 10 on failure. -/
theorem claim9_exit_codes :
    exit_code_from .noUpdates = 0 ∧ exit_code_from .compatibleUpdate = 1 ∧
    exit_code_from .breakingUpdate = 2 ∧ exit_code_from .failure = 10 :=
  ⟨rfl, rfl, rfl, rfl⟩

/-! ### The docker-compose IMAGE regex (src/docker_compose.rs)

The regex is
`((?P<user>[[:word:]-]+)/)?(?P<image>[[:word:]-]+):(?P<tag>[[:word:][:punct:]]+)`
searched (unanchored) over the raw image string. The `/` and `:`
delimiters are outside the repeated ASCII classes, so the greedy `+` runs
are exactly the maximal class runs and the engine's leftmost-first search
is: at each start offset, first the alternative with the user group, then
the one without. -/

/-- A `[[:word:]]` character: ASCII alphanumeric or underscore. -/
def isWordChar (c : Char) : Bool := c.isAlphanum || c = '_'

/-- A `[[:word:]-]` character, as in the user and image groups. -/
def isNameChar (c : Char) : Bool := isWordChar c || c = '-'

/-- A `[[:punct:]]` character: ASCII punctuation. -/
def isPunctChar (c : Char) : Bool :=
  (33 ≤ c.toNat && c.toNat ≤ 47) || (58 ≤ c.toNat && c.toNat ≤ 64) ||
  (91 ≤ c.toNat && c.toNat ≤ 96) || (123 ≤ c.toNat && c.toNat ≤ 126)

/-- A `[[:word:][:punct:]]` character, as in the tag group. -/
def isTagChar (c : Char) : Bool := isWordChar c || isPunctChar c

/-- The named capture groups of the IMAGE regex; `tag` is optional here to
mirror `captures.name("tag")` in `parse`. -/
structure ImageCaptures where
  user : Option String
  image : String
  tag : Option String
deriving DecidableEq, Repr

/-- The mandatory `(?P<image>[[:word:]-]+):(?P<tag>[[:word:][:punct:]]+)`
part of the IMAGE regex, matched at the current position: a nonempty name
run, a literal colon, a nonempty tag run. -/
def matchCore (cs : List Char) : Option (String × String) :=
  match cs.takeWhile isNameChar, cs.dropWhile isNameChar with
  | [], _ => none
  | _ :: _, [] => none
  | i :: img, c :: rest2 =>
    if c = ':' then
      match rest2.takeWhile isTagChar with
      | [] => none
      | t :: tg => some (⟨i :: img⟩, ⟨t :: tg⟩)
    else none

/-- The optional `((?P<user>[[:word:]-]+)/)?` prefix followed by the core:
a nonempty name run, a literal slash, then the core match. -/
def withUser (cs : List Char) : Option (String × String) :=
  match cs.takeWhile isNameChar, cs.dropWhile isNameChar with
  | [], _ => none
  | _ :: _, [] => none
  | _ :: _, c :: rest2 => if c = '/' then matchCore rest2 else none

/-- One anchored attempt of the IMAGE regex: leftmost-first prefers the
alternative with the user group. -/
def matchRegexAt (cs : List Char) : Option ImageCaptures :=
  match withUser cs, matchCore cs with
  | some (img, tg), _ => some ⟨some ⟨cs.takeWhile isNameChar⟩, img, some tg⟩
  | none, some (img, tg) => some ⟨none, img, some tg⟩
  | none, none => none

/-- `IMAGE.captures`: the unanchored search tries each start offset left
to right. -/
def searchCaptures : List Char → Option ImageCaptures
  | [] => none
  | c :: cs =>
    match matchRegexAt (c :: cs) with
    | some caps => some caps
    | none => searchCaptures cs

/-- The docker-compose parse errors (src/docker_compose.rs, `Error`); the
payload of the external yaml library's `LoadError` is elided. -/
inductive DcError where
  | loadError : DcError
  | malformedDockerfile : DcError
  | missingField : String → DcError
  | invalidImage : String → DcError
  | unsupportedBuildContext : String → DcError
deriving DecidableEq, Repr

/-- `ImageName` (src/image.rs, used by src/docker_compose.rs): optional
user plus image name. -/
structure ImageName where
  user : Option String
  name : String
deriving DecidableEq, Repr

/-- `Image` (src/image.rs, used by src/docker_compose.rs). -/
structure Image where
  name : ImageName
  tag : String
deriving DecidableEq, Repr

/-- `BuildContext` (src/docker_compose.rs). -/
inductive BuildContext where
  | image : Image → BuildContext
  | folder : String → BuildContext
deriving DecidableEq, Repr

/-- The `image:` branch of `docker_compose::parse` for one service
(src/docker_compose.rs lines 56-72): run the IMAGE regex over the raw
string; with no match fail with `InvalidImage`, otherwise build the image
from the captures, the absent tag capture defaulting to `latest`. -/
def parse_image (raw : String) : Except DcError BuildContext :=
  match searchCaptures raw.data with
  | none => .error (.invalidImage raw)
  | some caps =>
    let tag := match caps.tag with | some t => t | none => "latest"
    .ok (.image ⟨⟨caps.user, caps.image⟩, tag⟩)

theorem mem_of_dropWhile_mem {α : Type} (p : α → Bool) :
    ∀ {l : List α} {a : α}, a ∈ l.dropWhile p → a ∈ l := by
  intro l
  induction l with
  | nil => intro a h; simp at h
  | cons x xs ih =>
    intro a h
    rw [List.dropWhile_cons] at h
    by_cases hx : p x = true
    · simp only [hx, if_true] at h
      exact List.mem_cons_of_mem _ (ih h)
    · simp only [hx, if_false] at h
      exact h

theorem matchCore_some_colon :
    ∀ {cs : List Char} {x : String × String}, matchCore cs = some x → ':' ∈ cs := by
  intro cs x h
  unfold matchCore at h
  cases ht : cs.takeWhile isNameChar with
  | nil => rw [ht] at h; exact Option.noConfusion h
  | cons i img =>
    cases hd : cs.dropWhile isNameChar with
    | nil => rw [ht, hd] at h; exact Option.noConfusion h
    | cons c rest2 =>
      rw [ht, hd] at h
      dsimp only at h
      by_cases hc : c = ':'
      · subst hc
        exact mem_of_dropWhile_mem isNameChar (hd ▸ List.mem_cons_self ':' rest2)
      · rw [if_neg hc] at h
        exact Option.noConfusion h

theorem withUser_some_colon :
    ∀ {cs : List Char} {x : String × String}, withUser cs = some x → ':' ∈ cs := by
  intro cs x h
  unfold withUser at h
  cases ht : cs.takeWhile isNameChar with
  | nil => rw [ht] at h; exact Option.noConfusion h
  | cons i img =>
    cases hd : cs.dropWhile isNameChar with
    | nil => rw [ht, hd] at h; exact Option.noConfusion h
    | cons c rest2 =>
      rw [ht, hd] at h
      dsimp only at h
      by_cases hc : c = '/'
      · rw [if_pos hc] at h
        have hmem : ':' ∈ rest2 := matchCore_some_colon h
        exact mem_of_dropWhile_mem isNameChar (hd ▸ List.mem_cons_of_mem c hmem)
      · rw [if_neg hc] at h
        exact Option.noConfusion h

theorem matchRegexAt_some_colon :
    ∀ {cs : List Char} {caps : ImageCaptures},
      matchRegexAt cs = some caps → ':' ∈ cs := by
  intro cs caps h
  unfold matchRegexAt at h
  cases hw : withUser cs with
  | some x =>
    exact withUser_some_colon hw
  | none =>
    cases hm : matchCore cs with
    | some x => exact matchCore_some_colon hm
    | none =>
      rw [hw, hm] at h
      exact Option.noConfusion h

theorem matchRegexAt_tag_isSome :
    ∀ {cs : List Char} {caps : ImageCaptures},
      matchRegexAt cs = some caps → caps.tag.isSome = true := by
  intro cs caps h
  unfold matchRegexAt at h
  cases hw : withUser cs with
  | some x =>
    rw [hw] at h
    cases x with
    | mk img tg =>
      dsimp only at h
      injection h with h'
      subst h'
      rfl
  | none =>
    rw [hw] at h
    cases hm : matchCore cs with
    | some x =>
      rw [hm] at h
      cases x with
      | mk img tg =>
        dsimp only at h
        injection h with h'
        subst h'
        rfl
    | none =>
      rw [hm] at h
      exact Option.noConfusion h

theorem searchCaptures_some_colon :
    ∀ {cs : List Char} {caps : ImageCaptures},
      searchCaptures cs = some caps → ':' ∈ cs := by
  intro cs
  induction cs with
  | nil => intro caps h; exact Option.noConfusion h
  | cons c cs ih =>
    intro caps h
    rw [searchCaptures] at h
    cases hm : matchRegexAt (c :: cs) with
    | some caps2 => exact matchRegexAt_some_colon hm
    | none =>
      rw [hm] at h
      exact List.mem_cons_of_mem _ (ih h)

theorem searchCaptures_none_of_no_colon {cs : List Char} (hc : ':' ∉ cs) :
    searchCaptures cs = none := by
  cases h : searchCaptures cs with
  | none => rfl
  | some caps => exact absurd (searchCaptures_some_colon h) hc

/-- C10: an image string without a `:` is rejected by the IMAGE regex, so
`parse` fails with `InvalidImage` for that service instead of defaulting
the tag; and whenever the regex does match, the tag group is captured, so
the `latest` fallback is unreachable. -/
theorem claim10_tag_mandatory :
    (∀ raw : String, ':' ∉ raw.data →
        parse_image raw = .error (.invalidImage raw)) ∧
    (∀ (cs : List Char) (caps : ImageCaptures),
        searchCaptures cs = some caps → caps.tag.isSome = true) := by
  constructor
  · intro raw hc
    unfold parse_image
    rw [searchCaptures_none_of_no_colon hc]
  · intro cs
    induction cs with
    | nil => intro caps h; exact Option.noConfusion h
    | cons c cs ih =>
      intro caps h
      rw [searchCaptures] at h
      cases hm : matchRegexAt (c :: cs) with
      | some caps2 =>
        rw [hm] at h
        injection h with h'
        subst h'
        exact matchRegexAt_tag_isSome hm
      | none =>
        rw [hm] at h
        exact ih caps h

/-- Witness for C10: the tagless service image `ubuntu` and a successful
capture of `ubuntu:18.04`. -/
theorem claim10_witness :
    parse_image "ubuntu" = .error (.invalidImage "ubuntu") ∧
    (ImageCaptures.mk none "ubuntu" (some "18.04")).tag.isSome = true :=
  ⟨claim10_tag_mandatory.1 "ubuntu" (by decide),
   claim10_tag_mandatory.2 ("ubuntu:18.04".data) ⟨none, "ubuntu", some "18.04"⟩ rfl⟩

end Uptag
